import Mathlib

/-!
Verification development for the `Approximations` repository
(`src/logapprox.h`, `src/logtest.h`).

The approximants operate on IEEE-754 doubles.  We model a double as an
inductive value: NaN, the two infinities, negative zero, or a finite value
idealized as an exact rational (the arithmetic of the positive branch is
modelled exactly over `ℚ`).  The trusted reference logarithm `log2` used by
the validation harness is external library code, so the harness is
parameterized by an abstract `precise : ℚ → ℚ` oracle; the true base-2
logarithm is `Real.logb 2` where a claim speaks about the real error.
-/

/-- Model of an IEEE-754 floating-point value of type `T`:
NaN, the infinities, negative zero, and finite values as exact rationals
(`FloatVal.finite 0` is positive zero). -/
inductive FloatVal : Type
  | nan : FloatVal
  | pinf : FloatVal
  | ninf : FloatVal
  | negZero : FloatVal
  | finite : ℚ → FloatVal
  deriving DecidableEq

/-- `std::isfinite`: true exactly on (positive or negative) zero and finite values. -/
def FloatVal.isFinite : FloatVal → Bool
  | .nan => false
  | .pinf => false
  | .ninf => false
  | .negZero => true
  | .finite _ => true

/-- IEEE-754 `==`: NaN compares unequal to everything (itself included) and
`-0.0 == 0.0` holds. -/
def FloatVal.ieeeEq : FloatVal → FloatVal → Bool
  | .nan, _ => false
  | _, .nan => false
  | .pinf, .pinf => true
  | .ninf, .ninf => true
  | .negZero, .negZero => true
  | .negZero, .finite q => q == 0
  | .finite q, .negZero => q == 0
  | .finite q, .finite r => q == r
  | _, _ => false

/-- IEEE-754 `value > 0`: true exactly on strictly positive finite values. -/
def FloatVal.gtZero : FloatVal → Bool
  | .finite q => decide (0 < q)
  | _ => false

/-- The rational carried by a finite value (`-0.0` carries `0`); junk `0` on
non-finite values, which no caller below reaches. -/
def FloatVal.toQ : FloatVal → ℚ
  | .finite q => q
  | .negZero => 0
  | _ => 0

/-- Model of C `frexp` on a positive rational: `frexpQ value = (dM, iExp)`
with `value = dM * 2 ^ iExp` and `dM ∈ [1/2, 1)`.  (For `value ≤ 0` the
result is junk; every caller guards `value > 0`.) -/
def frexpQ (value : ℚ) : ℚ × ℤ :=
  (value / 2 ^ (Int.log 2 value + 1), Int.log 2 value + 1)

/-- Positive branch of `fastLog2p1` (src/logapprox.h:31-37). -/
def fastLog2p1Pos (value : ℚ) : ℚ :=
  let a : ℚ := 1.4767235475800453
  let b : ℚ := -1.477808113688585
  let c : ℚ := 0.60987486544988612
  let d : ℚ := 0.43559347328148307
  let p := frexpQ value
  let dM := p.1
  let iExp := p.2
  let x := 1 / (c * dM + d)
  (iExp : ℚ) + x * (a * dM + b)

/-- `fastLog2p1` (src/logapprox.h:22-41). -/
def fastLog2p1 (value : FloatVal) : FloatVal :=
  if !value.isFinite then
    (if value.ieeeEq .pinf then value else .nan)
  else if value.gtZero then
    .finite (fastLog2p1Pos value.toQ)
  else
    (if value.ieeeEq (.finite 0) then .ninf else .nan)

/-- Positive branch of `fastLog2p2` (src/logapprox.h:61-68). -/
def fastLog2p2Pos (value : ℚ) : ℚ :=
  let a : ℚ := 1.9127166899499954
  let b : ℚ := -0.68851400593499545
  let c : ℚ := -1.22420645509838
  let d : ℚ := 0.49463685172392841
  let e : ℚ := 1.426594307123505
  let f : ℚ := 0.2533316901691966
  let p := frexpQ value
  let dM := p.1
  let iExp := p.2
  let dM2 := dM * dM
  let x := 1 / (d * dM2 + e * dM + f)
  (iExp : ℚ) + x * (a * dM2 + b * dM + c)

/-- `fastLog2p2` (src/logapprox.h:50-72). -/
def fastLog2p2 (value : FloatVal) : FloatVal :=
  if !value.isFinite then
    (if value.ieeeEq .pinf then value else .nan)
  else if value.gtZero then
    .finite (fastLog2p2Pos value.toQ)
  else
    (if value.ieeeEq (.finite 0) then .ninf else .nan)

/-- Positive branch of `fastLog2p3` (src/logapprox.h:94-102). -/
def fastLog2p3Pos (value : ℚ) : ℚ :=
  let a : ℚ := 1.1098414161667869
  let b : ℚ := 1.4491119665946153
  let c : ℚ := -2.0697678829202806
  let d : ℚ := -0.48918550780729392
  let e : ℚ := 0.22977948696488379
  let f : ℚ := 1.4961611668393175
  let g : ℚ := 1.071708023446889
  let h : ℚ := 0.084444549259932208
  let p := frexpQ value
  let dM := p.1
  let iExp := p.2
  let dM2 := dM * dM
  let dM3 := dM * dM2
  let x := 1 / (e * dM3 + f * dM2 + g * dM + h)
  (iExp : ℚ) + x * (a * dM3 + b * dM2 + c * dM + d)

/-- `fastLog2p3` (src/logapprox.h:81-106). -/
def fastLog2p3 (value : FloatVal) : FloatVal :=
  if !value.isFinite then
    (if value.ieeeEq .pinf then value else .nan)
  else if value.gtZero then
    .finite (fastLog2p3Pos value.toQ)
  else
    (if value.ieeeEq (.finite 0) then .ninf else .nan)

/-- Positive branch of `fastLog2p4` (src/logapprox.h:130-139). -/
def fastLog2p4Pos (value : ℚ) : ℚ :=
  let a : ℚ := 0.59329970349044314
  let b : ℚ := 2.3979646338966889
  let c : ℚ := -0.96358966800238843
  let d : ℚ := -1.8439274267589987
  let e : ℚ := -0.18374724264449727
  let f : ℚ := 0.1068562844523792
  let g : ℚ := 1.2392957064266512
  let h : ℚ := 2.0062979261642901
  let i : ℚ := 0.63680961689938775
  let j : ℚ := 0.028211791264274255
  let p := frexpQ value
  let dM := p.1
  let iExp := p.2
  let dM2 := dM * dM
  let dM3 := dM * dM2
  let dM4 := dM2 * dM2
  let x := 1 / (((f * dM4 + h * dM2) + (g * dM3 + i * dM)) + j)
  (iExp : ℚ) + x * (((a * dM4 + c * dM2) + (b * dM3 + d * dM)) + e)

/-- `fastLog2p4` (src/logapprox.h:115-143). -/
def fastLog2p4 (value : FloatVal) : FloatVal :=
  if !value.isFinite then
    (if value.ieeeEq .pinf then value else .nan)
  else if value.gtZero then
    .finite (fastLog2p4Pos value.toQ)
  else
    (if value.ieeeEq (.finite 0) then .ninf else .nan)

/-- Positive branch of `fastLog2p5` (src/logapprox.h:171-181). -/
def fastLog2p5Pos (value : ℚ) : ℚ :=
  let a : ℚ := 1.000000000000000000000e+00
  let b : ℚ := 7.725948865520557262698e+00
  let c : ℚ := 3.881945342604792070773e+00
  let d : ℚ := -8.636342612430562226677e+00
  let e : ℚ := -3.765931586659196916855e+00
  let f : ℚ := -2.056200090358520915501e-01
  let g : ℚ := 1.636721511729113398559e-01
  let h : ℚ := 2.927957859861910261401e+00
  let i : ℚ := 8.330559374022366014856e+00
  let j : ℚ := 5.890032885395497075365e+00
  let k : ℚ := 1.034893176470858655591e+00
  let l : ℚ := 2.891963124989086267314e-02
  let p := frexpQ value
  let dM := p.1
  let iExp := p.2
  let dM2 := dM * dM
  let dM3 := dM * dM2
  let dM4 := dM2 * dM2
  let dM5 := dM2 * dM3
  let x := 1 / ((g * dM5 + l) + (h * dM4 + j * dM2) + (i * dM3 + k * dM))
  (iExp : ℚ) + x * ((a * dM5 + f) + (b * dM4 + d * dM2) + c * dM3 + e * dM)

/-- `fastLog2p5` (src/logapprox.h:154-185). -/
def fastLog2p5 (value : FloatVal) : FloatVal :=
  if !value.isFinite then
    (if value.ieeeEq .pinf then value else .nan)
  else if value.gtZero then
    .finite (fastLog2p5Pos value.toQ)
  else
    (if value.ieeeEq (.finite 0) then .ninf else .nan)

/-- Positive branch of `fastLog2p6` (src/logapprox.h:213-224). -/
def fastLog2p6Pos (value : ℚ) : ℚ :=
  let a : ℚ := 1.000000000000000000000e+00
  let b : ℚ := 1.251649209001242901707e+01
  let c : ℚ := 2.046583854860732643033e+01
  let d : ℚ := -1.097536826489419503616e+01
  let e : ℚ := -1.881965876655596403566e+01
  let f : ℚ := -4.046684236630626152476e+00
  let g : ℚ := -1.406193705389736370304e-01
  let h : ℚ := 1.518692933639071429575e-01
  let i : ℚ := 3.897795033656223484542e+00
  let j : ℚ := 1.728188727732104723600e+01
  let k : ℚ := 2.168720176727976678421e+01
  let l : ℚ := 8.568477446142038544963e+00
  let m : ℚ := 9.581795852523320444760e-01
  let n : ℚ := 1.851054408942580734032e-02
  let p := frexpQ value
  let dM := p.1
  let iExp := p.2
  let dM2 := dM * dM
  let dM3 := dM * dM2
  let dM4 := dM2 * dM2
  let dM5 := dM2 * dM3
  let dM6 := dM3 * dM3
  let x := 1 / ((((h * dM6 + n) + (i * dM5 + m * dM)) + (j * dM4 + l * dM2)) + k * dM3)
  (iExp : ℚ) + x * (((((a * dM6 + g) + (c * dM4 + d * dM3)) + b * dM5) + f * dM) + e * dM2)

/-- `fastLog2p6` (src/logapprox.h:194-228). -/
def fastLog2p6 (value : FloatVal) : FloatVal :=
  if !value.isFinite then
    (if value.ieeeEq .pinf then value else .nan)
  else if value.gtZero then
    .finite (fastLog2p6Pos value.toQ)
  else
    (if value.ieeeEq (.finite 0) then .ninf else .nan)

/-- The six approximants indexed by their degree `1..6` (identity junk
outside that range). -/
def fastLog2 (deg : ℕ) : FloatVal → FloatVal :=
  match deg with
  | 1 => fastLog2p1
  | 2 => fastLog2p2
  | 3 => fastLog2p3
  | 4 => fastLog2p4
  | 5 => fastLog2p5
  | 6 => fastLog2p6
  | _ => fun v => v

/-- Positive branches indexed by degree (junk `0` outside `1..6`). -/
def fastLog2Pos (deg : ℕ) : ℚ → ℚ :=
  match deg with
  | 1 => fastLog2p1Pos
  | 2 => fastLog2p2Pos
  | 3 => fastLog2p3Pos
  | 4 => fastLog2p4Pos
  | 5 => fastLog2p5Pos
  | 6 => fastLog2p6Pos
  | _ => fun _ => 0

/-- Multiplication of a (strictly positive finite) double constant with a
double value: NaN and the infinities are absorbing, signed zero keeps its
sign, finite values multiply exactly. -/
def fmul (c : ℚ) (v : FloatVal) : FloatVal :=
  match v with
  | .nan => .nan
  | .pinf => .pinf
  | .ninf => .ninf
  | .negZero => .negZero
  | .finite q => .finite (c * q)

/-- `fastLn` (src/logapprox.h:230-236). -/
def fastLn (value : FloatVal) (log2func : FloatVal → FloatVal) : FloatVal :=
  let g_rlog2_e : ℚ := 0.693147180559945309417232121458176568075500134360255254120
  fmul g_rlog2_e (log2func value)

/-- `fastLog10` (src/logapprox.h:238-244). -/
def fastLog10 (value : FloatVal) (log2func : FloatVal → FloatVal) : FloatVal :=
  let g_rlog2_10 : ℚ := 0.301029995663981195213738894724493026768189881462108541310
  fmul g_rlog2_10 (log2func value)

/-- Numerator polynomial of the degree-1 approximant. -/
def numerP1 (x : ℚ) : ℚ := 1.4767235475800453 * x + -1.477808113688585

/-- Denominator polynomial of the degree-1 approximant. -/
def denomQ1 (x : ℚ) : ℚ := 0.60987486544988612 * x + 0.43559347328148307

/-- Numerator polynomial of the degree-2 approximant. -/
def numerP2 (x : ℚ) : ℚ := 1.9127166899499954 * (x * x) + -0.68851400593499545 * x + -1.22420645509838

/-- Denominator polynomial of the degree-2 approximant. -/
def denomQ2 (x : ℚ) : ℚ := 0.49463685172392841 * (x * x) + 1.426594307123505 * x + 0.2533316901691966

/-- Numerator polynomial of the degree-3 approximant. -/
def numerP3 (x : ℚ) : ℚ :=
  1.1098414161667869 * (x * (x * x)) + 1.4491119665946153 * (x * x) +
    -2.0697678829202806 * x + -0.48918550780729392

/-- Denominator polynomial of the degree-3 approximant. -/
def denomQ3 (x : ℚ) : ℚ :=
  0.22977948696488379 * (x * (x * x)) + 1.4961611668393175 * (x * x) +
    1.071708023446889 * x + 0.084444549259932208

/-- Numerator polynomial of the degree-4 approximant. -/
def numerP4 (x : ℚ) : ℚ :=
  0.59329970349044314 * (x * x * (x * x)) + 2.3979646338966889 * (x * (x * x)) +
    -0.96358966800238843 * (x * x) + -1.8439274267589987 * x + -0.18374724264449727

/-- Denominator polynomial of the degree-4 approximant. -/
def denomQ4 (x : ℚ) : ℚ :=
  0.1068562844523792 * (x * x * (x * x)) + 1.2392957064266512 * (x * (x * x)) +
    2.0062979261642901 * (x * x) + 0.63680961689938775 * x + 0.028211791264274255

/-- Numerator polynomial of the degree-5 approximant. -/
def numerP5 (x : ℚ) : ℚ :=
  1.000000000000000000000e+00 * (x * x * (x * (x * x))) +
    7.725948865520557262698e+00 * (x * x * (x * x)) +
    3.881945342604792070773e+00 * (x * (x * x)) +
    -8.636342612430562226677e+00 * (x * x) +
    -3.765931586659196916855e+00 * x + -2.056200090358520915501e-01

/-- Denominator polynomial of the degree-5 approximant. -/
def denomQ5 (x : ℚ) : ℚ :=
  1.636721511729113398559e-01 * (x * x * (x * (x * x))) +
    2.927957859861910261401e+00 * (x * x * (x * x)) +
    8.330559374022366014856e+00 * (x * (x * x)) +
    5.890032885395497075365e+00 * (x * x) +
    1.034893176470858655591e+00 * x + 2.891963124989086267314e-02

/-- Numerator polynomial of the degree-6 approximant. -/
def numerP6 (x : ℚ) : ℚ :=
  1.000000000000000000000e+00 * (x * (x * x) * (x * (x * x))) +
    1.251649209001242901707e+01 * (x * x * (x * (x * x))) +
    2.046583854860732643033e+01 * (x * x * (x * x)) +
    -1.097536826489419503616e+01 * (x * (x * x)) +
    -1.881965876655596403566e+01 * (x * x) +
    -4.046684236630626152476e+00 * x + -1.406193705389736370304e-01

/-- Denominator polynomial of the degree-6 approximant. -/
def denomQ6 (x : ℚ) : ℚ :=
  1.518692933639071429575e-01 * (x * (x * x) * (x * (x * x))) +
    3.897795033656223484542e+00 * (x * x * (x * (x * x))) +
    1.728188727732104723600e+01 * (x * x * (x * x)) +
    2.168720176727976678421e+01 * (x * (x * x)) +
    8.568477446142038544963e+00 * (x * x) +
    9.581795852523320444760e-01 * x + 1.851054408942580734032e-02

/-- Documented per-degree worst-case error bounds: the theoretical max
errors stated in the comments of src/logapprox.h (lines 21, 49, 80, 114,
153, 193). -/
def docBound (deg : ℕ) : ℚ :=
  match deg with
  | 1 => 0.001464579127038346
  | 2 => 3.458795617805599e-06
  | 3 => 7.786322031577697e-09
  | 4 => 1.772559876656032e-11
  | 5 => 1.798561299892754e-14
  | 6 => 6.498986705940505e-17
  | _ => 0

/-! ## Validation harness (src/logtest.h) -/

/-- One slot update of the error accumulator, mirroring
`if (dDiff > dMaxError[j]) dMaxError[j] = dDiff`. -/
def updMax (dMaxError : Fin 7 → ℚ) (j : Fin 7) (dDiff : ℚ) : Fin 7 → ℚ :=
  fun k => if k = j then (if dDiff > dMaxError j then dDiff else dMaxError j) else dMaxError k

/-- The sample `x = 1.0 + i * (1.0 / uNumSamples)` visited at index `i`. -/
def sampleAt (uNumSamples i : ℕ) : ℚ :=
  1 + (i : ℚ) * (1 / (uNumSamples : ℚ))

/-- One loop iteration of `validateWorker` (src/logtest.h:77-123): compare
the six approximants against the trusted logarithm `precise` at sample `i`
and update accumulator slots `0..5`. -/
def workerStep (precise : ℚ → ℚ) (uNumSamples : ℕ) (dMaxError : Fin 7 → ℚ) (i : ℕ) :
    Fin 7 → ℚ :=
  let x := sampleAt uNumSamples i
  let dPrecise := precise x
  let m0 := updMax dMaxError 0 |dPrecise - (fastLog2p1 (.finite x)).toQ|
  let m1 := updMax m0 1 |dPrecise - (fastLog2p2 (.finite x)).toQ|
  let m2 := updMax m1 2 |dPrecise - (fastLog2p3 (.finite x)).toQ|
  let m3 := updMax m2 3 |dPrecise - (fastLog2p4 (.finite x)).toQ|
  let m4 := updMax m3 4 |dPrecise - (fastLog2p5 (.finite x)).toQ|
  updMax m4 5 |dPrecise - (fastLog2p6 (.finite x)).toQ|

/-- `validateWorker` (src/logtest.h:70-126): sweep the half-open index range
`[uStart, uEnd)` starting from the all-zero accumulator. -/
def validateWorker (precise : ℚ → ℚ) (uNumSamples uStart uEnd : ℕ) : Fin 7 → ℚ :=
  (List.range' uStart (uEnd - uStart)).foldl (workerStep precise uNumSamples) (fun _ => 0)

/-- `size_t` subtraction modulo `2 ^ 64` (the harness computes
`uNumThreads - 2` on `size_t`, which wraps for `uNumThreads = 1`). -/
def sizeSub (a b : ℕ) : ℕ :=
  (a + 2 ^ 64 - b) % 2 ^ 64

/-- The partition-generating loop of `validateAccuracy`
(src/logtest.h:142-148), with the remaining iteration count as fuel. -/
def partLoop (uNumSamples uNumSamplesPerThread cmpIdx : ℕ) :
    ℕ → ℕ → ℕ → ℕ → List (ℕ × ℕ)
  | 0, _, _, _ => []
  | fuel + 1, i, uStart, uEnd =>
    (uStart, uEnd) ::
      partLoop uNumSamples uNumSamplesPerThread cmpIdx fuel (i + 1) uEnd
        (if i = cmpIdx then uNumSamples + 1 else uEnd + uNumSamplesPerThread)

/-- The `[uStart, uEnd)` pairs handed to the `uNumThreads` workers by
`validateAccuracy` (src/logtest.h:139-148). -/
def partitions (uNumSamples uNumThreads : ℕ) : List (ℕ × ℕ) :=
  let uNumSamplesPerThread := uNumSamples / uNumThreads
  partLoop uNumSamples uNumSamplesPerThread (sizeSub uNumThreads 2) uNumThreads 0 0
    (min uNumSamplesPerThread uNumSamples)

/-- The reduction of `validateAccuracy` (src/logtest.h:151-157): fold the
element-wise maximum of the per-worker accumulators over the all-zero
initial accumulator. -/
def reduceMax (results : List (Fin 7 → ℚ)) : Fin 7 → ℚ :=
  results.foldl (fun dMaxError tf => fun k => max (dMaxError k) (tf k)) (fun _ => 0)

/-- `validateAccuracy` (src/logtest.h:128-169): partition, run the workers,
reduce. -/
def validateAccuracy (precise : ℚ → ℚ) (uNumSamples uNumThreads : ℕ) : Fin 7 → ℚ :=
  reduceMax ((partitions uNumSamples uNumThreads).map
    (fun pr => validateWorker precise uNumSamples pr.1 pr.2))

/-- Per-approximant error observed at sample index `i` (slot `6` is the
reserved, never-written baseline slot). -/
def errOf (precise : ℚ → ℚ) (uNumSamples i : ℕ) (k : Fin 7) : ℚ :=
  let x := sampleAt uNumSamples i
  match k with
  | ⟨0, _⟩ => |precise x - (fastLog2p1 (.finite x)).toQ|
  | ⟨1, _⟩ => |precise x - (fastLog2p2 (.finite x)).toQ|
  | ⟨2, _⟩ => |precise x - (fastLog2p3 (.finite x)).toQ|
  | ⟨3, _⟩ => |precise x - (fastLog2p4 (.finite x)).toQ|
  | ⟨4, _⟩ => |precise x - (fastLog2p5 (.finite x)).toQ|
  | ⟨5, _⟩ => |precise x - (fastLog2p6 (.finite x)).toQ|
  | ⟨6, _⟩ => 0
  | ⟨nn + 7, hh⟩ => absurd hh (by omega)

/-! ## Properties of the mantissa/exponent decomposition -/

theorem frexpQ_eq {q dM : ℚ} {iExp : ℤ} (hm1 : 1 / 2 ≤ dM) (hm2 : dM < 1)
    (hq : q = dM * 2 ^ iExp) : frexpQ q = (dM, iExp) := by
  have h2e : (0 : ℚ) < 2 ^ iExp := by positivity
  have hq0 : 0 < q := by
    rw [hq]; exact mul_pos (lt_of_lt_of_le (by norm_num) hm1) h2e
  have hlow : ((2 : ℕ) : ℚ) ^ (iExp - 1) ≤ q := by
    push_cast
    rw [hq, zpow_sub₀ (by norm_num : (2:ℚ) ≠ 0), zpow_one]
    have h : (2:ℚ) ^ iExp / 2 = (1/2) * 2 ^ iExp := by ring
    rw [h]
    exact mul_le_mul_of_nonneg_right hm1 h2e.le
  have hhigh : q < ((2 : ℕ) : ℚ) ^ iExp := by
    push_cast
    rw [hq]
    nlinarith
  have h1 : iExp - 1 ≤ Int.log 2 q := (Int.zpow_le_iff_le_log (by norm_num) hq0).mp hlow
  have h2 : Int.log 2 q < iExp := (Int.lt_zpow_iff_log_lt (by norm_num) hq0).mp hhigh
  have he : Int.log 2 q + 1 = iExp := by omega
  unfold frexpQ
  rw [he, hq, mul_div_cancel_right₀ _ (ne_of_gt h2e)]

theorem frexpQ_one : frexpQ 1 = (1/2, 1) := by
  refine frexpQ_eq ?_ ?_ ?_ <;> norm_num

theorem frexpQ_two : frexpQ 2 = (1/2, 2) := by
  refine frexpQ_eq ?_ ?_ ?_ <;> norm_num

theorem frexpQ_four : frexpQ 4 = (1/2, 3) := by
  refine frexpQ_eq ?_ ?_ ?_ <;> norm_num

theorem frexpQ_xstar : frexpQ (10531/10000) = (10531/20000, 1) := by
  refine frexpQ_eq ?_ ?_ ?_ <;> norm_num

theorem frexpQ_spec {q : ℚ} (hq : 0 < q) :
    1 / 2 ≤ (frexpQ q).1 ∧ (frexpQ q).1 < 1 ∧ q = (frexpQ q).1 * 2 ^ (frexpQ q).2 := by
  have hb : (1 : ℕ) < 2 := by norm_num
  have hlow := Int.zpow_log_le_self hb hq
  have hhigh := Int.lt_zpow_succ_log_self hb q
  have h2e : (0 : ℚ) < 2 ^ (Int.log 2 q + 1) := by positivity
  unfold frexpQ
  push_cast at hlow hhigh
  refine ⟨?_, ?_, ?_⟩
  · rw [le_div_iff₀ h2e]
    have h : (1:ℚ)/2 * 2 ^ (Int.log 2 q + 1) = 2 ^ (Int.log 2 q) := by
      rw [zpow_add₀ (by norm_num : (2:ℚ) ≠ 0), zpow_one]; ring
    rw [h]; exact hlow
  · rw [div_lt_one h2e]; exact hhigh
  · rw [div_mul_cancel₀ _ (ne_of_gt h2e)]

/-! ## Branch behaviour of the six approximants -/

theorem fastLog2p1_finite_pos {q : ℚ} (hq : 0 < q) :
    fastLog2p1 (.finite q) = .finite (fastLog2p1Pos q) := by
  simp [fastLog2p1, FloatVal.isFinite, FloatVal.gtZero, FloatVal.toQ, hq]

theorem fastLog2p2_finite_pos {q : ℚ} (hq : 0 < q) :
    fastLog2p2 (.finite q) = .finite (fastLog2p2Pos q) := by
  simp [fastLog2p2, FloatVal.isFinite, FloatVal.gtZero, FloatVal.toQ, hq]

theorem fastLog2p3_finite_pos {q : ℚ} (hq : 0 < q) :
    fastLog2p3 (.finite q) = .finite (fastLog2p3Pos q) := by
  simp [fastLog2p3, FloatVal.isFinite, FloatVal.gtZero, FloatVal.toQ, hq]

theorem fastLog2p4_finite_pos {q : ℚ} (hq : 0 < q) :
    fastLog2p4 (.finite q) = .finite (fastLog2p4Pos q) := by
  simp [fastLog2p4, FloatVal.isFinite, FloatVal.gtZero, FloatVal.toQ, hq]

theorem fastLog2p5_finite_pos {q : ℚ} (hq : 0 < q) :
    fastLog2p5 (.finite q) = .finite (fastLog2p5Pos q) := by
  simp [fastLog2p5, FloatVal.isFinite, FloatVal.gtZero, FloatVal.toQ, hq]

theorem fastLog2p6_finite_pos {q : ℚ} (hq : 0 < q) :
    fastLog2p6 (.finite q) = .finite (fastLog2p6Pos q) := by
  simp [fastLog2p6, FloatVal.isFinite, FloatVal.gtZero, FloatVal.toQ, hq]

/-- C2: for every degree variant `d ∈ {1..6}` the special-value policy holds
exactly: `+∞ ↦ +∞`; NaN and `-∞ ↦ NaN`; `0.0 ↦ -∞`; strictly negative
finite inputs `↦ NaN`; strictly positive inputs proceed to the
approximation algorithm (the positive branch). -/
theorem fastLog2_special_values :
    ∀ deg : ℕ, 1 ≤ deg → deg ≤ 6 →
      fastLog2 deg .pinf = .pinf ∧
      fastLog2 deg .nan = .nan ∧
      fastLog2 deg .ninf = .nan ∧
      fastLog2 deg (.finite 0) = .ninf ∧
      (∀ q : ℚ, q < 0 → fastLog2 deg (.finite q) = .nan) ∧
      (∀ q : ℚ, 0 < q → fastLog2 deg (.finite q) = .finite (fastLog2Pos deg q)) := by
  intro deg h1 h6
  interval_cases deg <;>
    refine ⟨rfl, rfl, rfl, ?_, fun q hq => ?_, fun q hq => ?_⟩ <;>
    simp [fastLog2, fastLog2Pos, fastLog2p1, fastLog2p2, fastLog2p3, fastLog2p4,
      fastLog2p5, fastLog2p6, FloatVal.isFinite, FloatVal.gtZero, FloatVal.toQ,
      FloatVal.ieeeEq] <;>
    simp [hq, hq.ne, asymm hq]

theorem fastLog2_special_values_witness :
    fastLog2 1 .pinf = .pinf ∧ fastLog2 1 (.finite (-5)) = .nan ∧
      fastLog2 1 (.finite 1) = .finite (fastLog2Pos 1 1) := by
  obtain ⟨hp, -, -, -, hneg, hpos⟩ := fastLog2_special_values 1 (by norm_num) (by norm_num)
  exact ⟨hp, hneg (-5) (by norm_num), hpos 1 (by norm_num)⟩

/-- C9: the zero branch compares with IEEE `==`, under which `-0.0 == 0.0`,
so negative zero is sent to `-∞` (never to NaN) by all six approximants. -/
theorem fastLog2_negZero :
    fastLog2p1 .negZero = .ninf ∧ fastLog2p2 .negZero = .ninf ∧
      fastLog2p3 .negZero = .ninf ∧ fastLog2p4 .negZero = .ninf ∧
      fastLog2p5 .negZero = .ninf ∧ fastLog2p6 .negZero = .ninf := by
  refine ⟨?_, ?_, ?_, ?_, ?_, ?_⟩ <;>
    simp [fastLog2p1, fastLog2p2, fastLog2p3, fastLog2p4, fastLog2p5, fastLog2p6,
      FloatVal.isFinite, FloatVal.gtZero, FloatVal.ieeeEq]

/-- C3: on every strictly positive finite input, each approximant returns
`exponent + P(mantissa) / Q(mantissa)` for its fitted numerator/denominator
polynomials, where `(mantissa, exponent)` is the exact decomposition
`q = mantissa * 2 ^ exponent` with `mantissa ∈ [1/2, 1)`. -/
theorem fastLog2_decomposition :
    ∀ q : ℚ, 0 < q →
      (1 / 2 ≤ (frexpQ q).1 ∧ (frexpQ q).1 < 1 ∧ q = (frexpQ q).1 * 2 ^ (frexpQ q).2) ∧
      fastLog2p1 (.finite q) =
        .finite (((frexpQ q).2 : ℚ) + numerP1 (frexpQ q).1 / denomQ1 (frexpQ q).1) ∧
      fastLog2p2 (.finite q) =
        .finite (((frexpQ q).2 : ℚ) + numerP2 (frexpQ q).1 / denomQ2 (frexpQ q).1) ∧
      fastLog2p3 (.finite q) =
        .finite (((frexpQ q).2 : ℚ) + numerP3 (frexpQ q).1 / denomQ3 (frexpQ q).1) ∧
      fastLog2p4 (.finite q) =
        .finite (((frexpQ q).2 : ℚ) + numerP4 (frexpQ q).1 / denomQ4 (frexpQ q).1) ∧
      fastLog2p5 (.finite q) =
        .finite (((frexpQ q).2 : ℚ) + numerP5 (frexpQ q).1 / denomQ5 (frexpQ q).1) ∧
      fastLog2p6 (.finite q) =
        .finite (((frexpQ q).2 : ℚ) + numerP6 (frexpQ q).1 / denomQ6 (frexpQ q).1) := by
  intro q hq
  refine ⟨frexpQ_spec hq, ?_, ?_, ?_, ?_, ?_, ?_⟩
  · rw [fastLog2p1_finite_pos hq]
    simp only [fastLog2p1Pos, numerP1, denomQ1]
    rw [one_div_mul_eq_div]
  · rw [fastLog2p2_finite_pos hq]
    simp only [fastLog2p2Pos, numerP2, denomQ2]
    rw [one_div_mul_eq_div]
  · rw [fastLog2p3_finite_pos hq]
    simp only [fastLog2p3Pos, numerP3, denomQ3]
    rw [one_div_mul_eq_div]
  · rw [fastLog2p4_finite_pos hq]
    simp only [fastLog2p4Pos, numerP4, denomQ4]
    rw [one_div_mul_eq_div]
    ring_nf
  · rw [fastLog2p5_finite_pos hq]
    simp only [fastLog2p5Pos, numerP5, denomQ5]
    rw [one_div_mul_eq_div]
    ring_nf
  · rw [fastLog2p6_finite_pos hq]
    simp only [fastLog2p6Pos, numerP6, denomQ6]
    rw [one_div_mul_eq_div]
    ring_nf

theorem fastLog2_decomposition_witness :
    fastLog2p1 (.finite 4) =
      .finite (((frexpQ 4).2 : ℚ) + numerP1 (frexpQ 4).1 / denomQ1 (frexpQ 4).1) ∧
      (4 : ℚ) = (frexpQ 4).1 * 2 ^ (frexpQ 4).2 := by
  obtain ⟨⟨-, -, hdec⟩, hp1, -⟩ := fastLog2_decomposition 4 (by norm_num)
  exact ⟨hp1, hdec⟩

/-! ## Exact values of the positive branches at 1, 2 and 4
(`frexp` yields mantissa `1/2` and exponents `1`, `2`, `3` respectively,
so the rational-function part is the same in all three). -/

theorem fastLog2p1Pos_one : fastLog2p1Pos 1 = 108456610786378 / 74053090600642613 := by
  unfold fastLog2p1Pos; rw [frexpQ_one]; norm_num

theorem fastLog2p2Pos_one : fastLog2p2Pos 1 = 1508433420931 / 436115222664772481 := by
  unfold fastLog2p2Pos; rw [frexpQ_one]; norm_num

theorem fastLog2p3Pos_one : fastLog2p3Pos 1 = 31863538097 / 4092245154255266227 := by
  unfold fastLog2p3Pos; rw [frexpQ_one]; norm_num

theorem fastLog2p4Pos_one : fastLog2p4Pos 1 = 13832669 / 807825249869316604 := by
  unfold fastLog2p4Pos; rw [frexpQ_one]; norm_num

theorem fastLog2p5Pos_one : fastLog2p5Pos 1 = 89300789359 / 5197290373684020930999919 := by
  unfold fastLog2p5Pos; rw [frexpQ_one]; norm_num

theorem fastLog2p6Pos_one : fastLog2p6Pos 1 = 19429219 / 20975734164813458557107099 := by
  unfold fastLog2p6Pos; rw [frexpQ_one]; norm_num

theorem fastLog2p1Pos_two : fastLog2p1Pos 2 = 1 + 108456610786378 / 74053090600642613 := by
  unfold fastLog2p1Pos; rw [frexpQ_two]; norm_num

theorem fastLog2p2Pos_two : fastLog2p2Pos 2 = 1 + 1508433420931 / 436115222664772481 := by
  unfold fastLog2p2Pos; rw [frexpQ_two]; norm_num

theorem fastLog2p3Pos_two : fastLog2p3Pos 2 = 1 + 31863538097 / 4092245154255266227 := by
  unfold fastLog2p3Pos; rw [frexpQ_two]; norm_num

theorem fastLog2p4Pos_two : fastLog2p4Pos 2 = 1 + 13832669 / 807825249869316604 := by
  unfold fastLog2p4Pos; rw [frexpQ_two]; norm_num

theorem fastLog2p5Pos_two : fastLog2p5Pos 2 = 1 + 89300789359 / 5197290373684020930999919 := by
  unfold fastLog2p5Pos; rw [frexpQ_two]; norm_num

theorem fastLog2p6Pos_two : fastLog2p6Pos 2 = 1 + 19429219 / 20975734164813458557107099 := by
  unfold fastLog2p6Pos; rw [frexpQ_two]; norm_num

theorem fastLog2p1Pos_four : fastLog2p1Pos 4 = 2 + 108456610786378 / 74053090600642613 := by
  unfold fastLog2p1Pos; rw [frexpQ_four]; norm_num

theorem fastLog2p2Pos_four : fastLog2p2Pos 4 = 2 + 1508433420931 / 436115222664772481 := by
  unfold fastLog2p2Pos; rw [frexpQ_four]; norm_num

theorem fastLog2p3Pos_four : fastLog2p3Pos 4 = 2 + 31863538097 / 4092245154255266227 := by
  unfold fastLog2p3Pos; rw [frexpQ_four]; norm_num

theorem fastLog2p4Pos_four : fastLog2p4Pos 4 = 2 + 13832669 / 807825249869316604 := by
  unfold fastLog2p4Pos; rw [frexpQ_four]; norm_num

theorem fastLog2p5Pos_four : fastLog2p5Pos 4 = 2 + 89300789359 / 5197290373684020930999919 := by
  unfold fastLog2p5Pos; rw [frexpQ_four]; norm_num

theorem fastLog2p6Pos_four : fastLog2p6Pos 4 = 2 + 19429219 / 20975734164813458557107099 := by
  unfold fastLog2p6Pos; rw [frexpQ_four]; norm_num

/-- C6: `fastLn` and `fastLog10` are the bare scalar multiplications by the
fixed constants `ln 2` and `log10 2` — they add no error handling of their
own: NaN and the infinities pass through exactly as the selected
approximant produced them, and finite outputs are multiplied exactly. -/
theorem fastLn_fastLog10_rescaling :
    ∀ (log2func : FloatVal → FloatVal) (value : FloatVal),
      fastLn value log2func =
        fmul 0.693147180559945309417232121458176568075500134360255254120 (log2func value) ∧
      fastLog10 value log2func =
        fmul 0.301029995663981195213738894724493026768189881462108541310 (log2func value) ∧
      (log2func value = .nan → fastLn value log2func = .nan ∧ fastLog10 value log2func = .nan) ∧
      (log2func value = .pinf → fastLn value log2func = .pinf ∧ fastLog10 value log2func = .pinf) ∧
      (log2func value = .ninf → fastLn value log2func = .ninf ∧ fastLog10 value log2func = .ninf) ∧
      (∀ q : ℚ, log2func value = .finite q →
        fastLn value log2func =
          .finite (0.693147180559945309417232121458176568075500134360255254120 * q) ∧
        fastLog10 value log2func =
          .finite (0.301029995663981195213738894724493026768189881462108541310 * q)) := by
  intro log2func value
  refine ⟨rfl, rfl, fun h => ?_, fun h => ?_, fun h => ?_, fun q h => ?_⟩ <;>
    simp [fastLn, fastLog10, fmul, h]

theorem fastLn_fastLog10_rescaling_witness :
    fastLn .pinf (fun _ => .nan) = .nan ∧ fastLog10 .pinf (fun _ => .nan) = .nan := by
  exact (fastLn_fastLog10_rescaling (fun _ => .nan) .pinf).2.2.1 rfl

/-- C7 counterexample: the decomposition of `4.0` used by the approximants
is `4 = 0.5 * 2 ^ 3` (mantissa `1/2`, exponent `3`), not mantissa `1.0`
with exponent `2` as the claim states — the mantissa interval is
`[0.5, 1.0)`, which excludes `1.0`. -/
theorem frexp_four_cex : frexpQ 4 = (1/2, 3) ∧ frexpQ 4 ≠ (1, 2) := by
  refine ⟨frexpQ_four, ?_⟩
  rw [frexpQ_four]
  intro h
  rw [Prod.mk.injEq] at h
  exact absurd h.2 (by norm_num)

/-- C7 amended: for input `4.0` the decomposition yields exponent `3` and
mantissa `0.5`, and every degree's result is within that degree's
documented error bound of `2.0`. -/
theorem approx_four_within_bound :
    frexpQ 4 = (1/2, 3) ∧
    ∀ deg : ℕ, 1 ≤ deg → deg ≤ 6 →
      |(fastLog2 deg (.finite 4)).toQ - 2| ≤ docBound deg := by
  refine ⟨frexpQ_four, ?_⟩
  intro deg h1 h6
  interval_cases deg
  · rw [show fastLog2 1 = fastLog2p1 from rfl, fastLog2p1_finite_pos (by norm_num)]
    simp only [FloatVal.toQ, fastLog2p1Pos_four, docBound]
    rw [add_sub_cancel_left, abs_of_pos (by norm_num)]
    norm_num
  · rw [show fastLog2 2 = fastLog2p2 from rfl, fastLog2p2_finite_pos (by norm_num)]
    simp only [FloatVal.toQ, fastLog2p2Pos_four, docBound]
    rw [add_sub_cancel_left, abs_of_pos (by norm_num)]
    norm_num
  · rw [show fastLog2 3 = fastLog2p3 from rfl, fastLog2p3_finite_pos (by norm_num)]
    simp only [FloatVal.toQ, fastLog2p3Pos_four, docBound]
    rw [add_sub_cancel_left, abs_of_pos (by norm_num)]
    norm_num
  · rw [show fastLog2 4 = fastLog2p4 from rfl, fastLog2p4_finite_pos (by norm_num)]
    simp only [FloatVal.toQ, fastLog2p4Pos_four, docBound]
    rw [add_sub_cancel_left, abs_of_pos (by norm_num)]
    norm_num
  · rw [show fastLog2 5 = fastLog2p5 from rfl, fastLog2p5_finite_pos (by norm_num)]
    simp only [FloatVal.toQ, fastLog2p5Pos_four, docBound]
    rw [add_sub_cancel_left, abs_of_pos (by norm_num)]
    norm_num
  · rw [show fastLog2 6 = fastLog2p6 from rfl, fastLog2p6_finite_pos (by norm_num)]
    simp only [FloatVal.toQ, fastLog2p6Pos_four, docBound]
    rw [add_sub_cancel_left, abs_of_pos (by norm_num)]
    norm_num

theorem approx_four_within_bound_witness :
    |(fastLog2 1 (.finite 4)).toQ - 2| ≤ docBound 1 := by
  exact (approx_four_within_bound).2 1 (by norm_num) (by norm_num)

theorem fastLog2p1Pos_xstar :
    fastLog2p1Pos (10531/10000) = 56483753973808459201/756723083684120606486 := by
  unfold fastLog2p1Pos; rw [frexpQ_xstar]; norm_num

theorem fastLog2p2Pos_xstar :
    fastLog2p2Pos (10531/10000) = 3408479565658389451459141/45665816587308115439261201 := by
  unfold fastLog2p2Pos; rw [frexpQ_xstar]; norm_num

theorem log_xstar_bounds :
    (0.05173819540 : ℝ) ≤ Real.log (10531/10000) ∧
      Real.log (10531/10000) ≤ 0.05173819541 := by
  have hx : |(-531/10000 : ℝ)| < 1 := by
    rw [abs_of_nonpos (by norm_num)]; norm_num
  have h := Real.abs_log_sub_add_sum_range_le hx 8
  have hsum : (∑ i in Finset.range 8, (-531/10000 : ℝ) ^ (i + 1) / (i + 1)) =
      -289733894262727764487396407509913/5600000000000000000000000000000000 := by
    simp [Finset.sum_range_succ]
    norm_num
  have harg : (1 : ℝ) - (-531/10000) = 10531/10000 := by norm_num
  have hB : |(-531/10000 : ℝ)| ^ (8 + 1) / (1 - |(-531/10000 : ℝ)|) ≤ 3.6e-12 := by
    rw [abs_of_nonpos (by norm_num)]
    norm_num
  rw [hsum, harg] at h
  rw [abs_le] at h
  obtain ⟨hlo, hhi⟩ := h
  constructor
  · nlinarith [hB, hlo]
  · nlinarith [hB, hhi]

theorem logb_xstar_bounds :
    (0.0746424379 : ℝ) ≤ Real.logb 2 (10531/10000 : ℝ) ∧
      Real.logb 2 (10531/10000 : ℝ) ≤ 0.074642438 := by
  obtain ⟨hxl, hxh⟩ := log_xstar_bounds
  have hl2a : (0.6931471803 : ℝ) < Real.log 2 := Real.log_two_gt_d9
  have hl2b : Real.log 2 < 0.6931471808 := Real.log_two_lt_d9
  have hl2pos : (0 : ℝ) < Real.log 2 := by linarith
  rw [← Real.log_div_log]
  constructor
  · rw [le_div_iff₀ hl2pos]
    nlinarith [hxl, hl2b]
  · rw [div_le_iff₀ hl2pos]
    nlinarith [hxh, hl2a]

/-- C5 counterexample: at the concrete input `x = 1.0531` (within the
calibration interval `[1.0, 2.0)`) the degree-2 approximant has a LARGER
absolute error against the true base-2 logarithm than the degree-1
approximant, because `1.0531` lies next to a zero crossing of the degree-1
error curve: the error of degree 1 there is below `1e-6` while the error of
degree 2 exceeds `2.8e-6`.  Pointwise error monotonicity in the degree is
therefore false. -/
theorem pointwise_error_monotonicity_cex :
    |((fastLog2 1 (.finite (10531/10000))).toQ : ℝ) - Real.logb 2 ((10531/10000 : ℚ) : ℝ)| <
      |((fastLog2 2 (.finite (10531/10000))).toQ : ℝ) - Real.logb 2 ((10531/10000 : ℚ) : ℝ)| := by
  rw [show fastLog2 1 = fastLog2p1 from rfl, show fastLog2 2 = fastLog2p2 from rfl,
    fastLog2p1_finite_pos (by norm_num), fastLog2p2_finite_pos (by norm_num)]
  simp only [FloatVal.toQ, fastLog2p1Pos_xstar, fastLog2p2Pos_xstar]
  have hcast : ((10531/10000 : ℚ) : ℝ) = 10531/10000 := by norm_num
  rw [hcast]
  obtain ⟨hl, hh⟩ := logb_xstar_bounds
  have hA1 : ((56483753973808459201/756723083684120606486 : ℚ) : ℝ) =
      56483753973808459201/756723083684120606486 := by norm_num
  have hA2 : ((3408479565658389451459141/45665816587308115439261201 : ℚ) : ℝ) =
      3408479565658389451459141/45665816587308115439261201 := by norm_num
  rw [hA1, hA2]
  have fact1 : (56483753973808459201/756723083684120606486 : ℝ) < 0.0746424379 + 1e-6 := by
    norm_num
  have fact2 : (0.074642438 : ℝ) - 1e-6 < 56483753973808459201/756723083684120606486 := by
    norm_num
  have fact3 : (3408479565658389451459141/45665816587308115439261201 : ℝ) + 1e-6 <
      0.0746424379 := by
    norm_num
  have h1 : |(56483753973808459201/756723083684120606486 : ℝ) -
      Real.logb 2 (10531/10000 : ℝ)| < 1e-6 := by
    rw [abs_lt]
    constructor <;> linarith
  have h2 : (1e-6 : ℝ) < |(3408479565658389451459141/45665816587308115439261201 : ℝ) -
      Real.logb 2 (10531/10000 : ℝ)| := by
    have hneg : (3408479565658389451459141/45665816587308115439261201 : ℝ) -
        Real.logb 2 (10531/10000 : ℝ) < -1e-6 := by linarith
    calc (1e-6 : ℝ) < -((3408479565658389451459141/45665816587308115439261201 : ℝ) -
          Real.logb 2 (10531/10000 : ℝ)) := by linarith
    _ ≤ |(3408479565658389451459141/45665816587308115439261201 : ℝ) -
          Real.logb 2 (10531/10000 : ℝ)| := neg_le_abs _
  linarith

/-- C5 amended: pointwise monotonicity of the error in the degree fails for
arbitrary fixed `x` (see the counterexample at `x = 1.0531`); what does
hold at the calibration endpoint `x = 1.0` — where the true logarithm is
exactly `0` — is that each higher-degree approximant has error no larger
than its predecessor. -/
theorem error_monotone_at_one :
    ∀ deg : ℕ, 1 ≤ deg → deg ≤ 5 →
      |((fastLog2 (deg + 1) (.finite 1)).toQ : ℝ) - Real.logb 2 ((1 : ℚ) : ℝ)| ≤
        |((fastLog2 deg (.finite 1)).toQ : ℝ) - Real.logb 2 ((1 : ℚ) : ℝ)| := by
  intro deg h1 h5
  have hlb : Real.logb 2 ((1 : ℚ) : ℝ) = 0 := by
    rw [Rat.cast_one, Real.logb_one]
  rw [hlb, sub_zero, sub_zero]
  interval_cases deg
  · rw [show fastLog2 2 = fastLog2p2 from rfl, show fastLog2 1 = fastLog2p1 from rfl,
      fastLog2p2_finite_pos (by norm_num), fastLog2p1_finite_pos (by norm_num)]
    simp only [FloatVal.toQ, fastLog2p2Pos_one, fastLog2p1Pos_one]
    push_cast
    rw [abs_of_pos (by norm_num), abs_of_pos (by norm_num)]
    norm_num
  · rw [show fastLog2 3 = fastLog2p3 from rfl, show fastLog2 2 = fastLog2p2 from rfl,
      fastLog2p3_finite_pos (by norm_num), fastLog2p2_finite_pos (by norm_num)]
    simp only [FloatVal.toQ, fastLog2p3Pos_one, fastLog2p2Pos_one]
    push_cast
    rw [abs_of_pos (by norm_num), abs_of_pos (by norm_num)]
    norm_num
  · rw [show fastLog2 4 = fastLog2p4 from rfl, show fastLog2 3 = fastLog2p3 from rfl,
      fastLog2p4_finite_pos (by norm_num), fastLog2p3_finite_pos (by norm_num)]
    simp only [FloatVal.toQ, fastLog2p4Pos_one, fastLog2p3Pos_one]
    push_cast
    rw [abs_of_pos (by norm_num), abs_of_pos (by norm_num)]
    norm_num
  · rw [show fastLog2 5 = fastLog2p5 from rfl, show fastLog2 4 = fastLog2p4 from rfl,
      fastLog2p5_finite_pos (by norm_num), fastLog2p4_finite_pos (by norm_num)]
    simp only [FloatVal.toQ, fastLog2p5Pos_one, fastLog2p4Pos_one]
    push_cast
    rw [abs_of_pos (by norm_num), abs_of_pos (by norm_num)]
    norm_num
  · rw [show fastLog2 6 = fastLog2p6 from rfl, show fastLog2 5 = fastLog2p5 from rfl,
      fastLog2p6_finite_pos (by norm_num), fastLog2p5_finite_pos (by norm_num)]
    simp only [FloatVal.toQ, fastLog2p6Pos_one, fastLog2p5Pos_one]
    push_cast
    rw [abs_of_pos (by norm_num), abs_of_pos (by norm_num)]
    norm_num

theorem error_monotone_at_one_witness :
    |((fastLog2 2 (.finite 1)).toQ : ℝ) - Real.logb 2 ((1 : ℚ) : ℝ)| ≤
      |((fastLog2 1 (.finite 1)).toQ : ℝ) - Real.logb 2 ((1 : ℚ) : ℝ)| := by
  exact error_monotone_at_one 1 (by norm_num) (by norm_num)

/-! ## Harness projection and reduction lemmas -/

theorem updMax_apply (dMaxError : Fin 7 → ℚ) (j k : Fin 7) (dDiff : ℚ) :
    updMax dMaxError j dDiff k =
      if k = j then max (dMaxError j) dDiff else dMaxError k := by
  unfold updMax
  rcases eq_or_ne k j with h | h
  · rw [if_pos h, if_pos h]
    rcases lt_or_ge (dMaxError j) dDiff with hlt | hge
    · rw [if_pos hlt, max_eq_right hlt.le]
    · rw [if_neg (not_lt.mpr hge), max_eq_left hge]
  · rw [if_neg h, if_neg h]

theorem workerStep_apply (precise : ℚ → ℚ) (uNumSamples : ℕ) (acc : Fin 7 → ℚ)
    (i : ℕ) (k : Fin 7) :
    workerStep precise uNumSamples acc i k =
      if k = 6 then acc k else max (acc k) (errOf precise uNumSamples i k) := by
  fin_cases k <;> simp [workerStep, updMax_apply, errOf]

theorem foldl_workerStep_proj (precise : ℚ → ℚ) (uNumSamples : ℕ) (l : List ℕ)
    (acc : Fin 7 → ℚ) (k : Fin 7) (hk : k ≠ 6) :
    l.foldl (workerStep precise uNumSamples) acc k =
      l.foldl (fun m i => max m (errOf precise uNumSamples i k)) (acc k) := by
  induction l generalizing acc with
  | nil => rfl
  | cons i l ih =>
    rw [List.foldl_cons, List.foldl_cons, ih, workerStep_apply, if_neg hk]

theorem foldl_workerStep_six (precise : ℚ → ℚ) (uNumSamples : ℕ) (l : List ℕ)
    (acc : Fin 7 → ℚ) :
    l.foldl (workerStep precise uNumSamples) acc 6 = acc 6 := by
  induction l generalizing acc with
  | nil => rfl
  | cons i l ih =>
    rw [List.foldl_cons, ih, workerStep_apply, if_pos rfl]

theorem validateWorker_proj (precise : ℚ → ℚ) (uNumSamples uStart uEnd : ℕ)
    (k : Fin 7) (hk : k ≠ 6) :
    validateWorker precise uNumSamples uStart uEnd k =
      (List.range' uStart (uEnd - uStart)).foldl
        (fun m i => max m (errOf precise uNumSamples i k)) 0 := by
  unfold validateWorker
  rw [foldl_workerStep_proj _ _ _ _ _ hk]

theorem validateWorker_six (precise : ℚ → ℚ) (uNumSamples uStart uEnd : ℕ) :
    validateWorker precise uNumSamples uStart uEnd 6 = 0 := by
  unfold validateWorker
  rw [foldl_workerStep_six]

theorem foldl_red_proj (results : List (Fin 7 → ℚ)) (acc : Fin 7 → ℚ) (k : Fin 7) :
    results.foldl (fun dMaxError tf => fun k => max (dMaxError k) (tf k)) acc k =
      results.foldl (fun m tf => max m (tf k)) (acc k) := by
  induction results generalizing acc with
  | nil => rfl
  | cons tf l ih =>
    rw [List.foldl_cons, List.foldl_cons, ih]

theorem reduceMax_apply (results : List (Fin 7 → ℚ)) (k : Fin 7) :
    reduceMax results k = results.foldl (fun m tf => max m (tf k)) 0 := by
  unfold reduceMax
  rw [foldl_red_proj]

theorem foldl_max_shift {α : Type} (g : α → ℚ) (l : List α) (a b : ℚ) :
    l.foldl (fun m t => max m (g t)) (max a b) =
      max a (l.foldl (fun m t => max m (g t)) b) := by
  induction l generalizing b with
  | nil => rfl
  | cons t l ih =>
    rw [List.foldl_cons, List.foldl_cons, max_assoc, ih]

theorem le_foldl_max {α : Type} (g : α → ℚ) (l : List α) (a : ℚ) :
    a ≤ l.foldl (fun m t => max m (g t)) a := by
  induction l generalizing a with
  | nil => exact le_refl a
  | cons t l ih =>
    rw [List.foldl_cons]
    exact le_trans (le_max_left a (g t)) (ih (max a (g t)))

theorem mem_le_foldl_max {α : Type} (g : α → ℚ) (l : List α) (a : ℚ) {t : α}
    (ht : t ∈ l) : g t ≤ l.foldl (fun m t => max m (g t)) a := by
  induction l generalizing a with
  | nil => cases ht
  | cons u l ih =>
    rw [List.foldl_cons]
    rcases List.mem_cons.mp ht with h | h
    · subst h
      exact le_trans (le_max_right a (g t)) (le_foldl_max g l (max a (g t)))
    · exact ih _ h

theorem foldl_max_flatMap (g : ℕ → ℚ) (ps : List (ℕ × ℕ)) (a : ℚ) (ha : 0 ≤ a) :
    ps.foldl (fun m pr =>
        max m ((List.range' pr.1 (pr.2 - pr.1)).foldl (fun m i => max m (g i)) 0)) a =
      (ps.flatMap (fun pr => List.range' pr.1 (pr.2 - pr.1))).foldl
        (fun m i => max m (g i)) a := by
  induction ps generalizing a with
  | nil => rfl
  | cons pr ps ih =>
    rw [List.foldl_cons, List.flatMap_cons, List.foldl_append]
    have hstep : (List.range' pr.1 (pr.2 - pr.1)).foldl (fun m i => max m (g i)) a =
        max a ((List.range' pr.1 (pr.2 - pr.1)).foldl (fun m i => max m (g i)) 0) := by
      conv_lhs => rw [show a = max a 0 from (max_eq_left ha).symm]
      exact foldl_max_shift g _ a 0
    rw [hstep, ih _ (le_trans ha (le_max_left _ _))]

theorem foldl_max_zero_slot (l : List (Fin 7 → ℚ)) (hl : ∀ tf ∈ l, tf 6 = 0) :
    l.foldl (fun m tf => max m (tf 6)) 0 = 0 := by
  induction l with
  | nil => rfl
  | cons tf l ih =>
    rw [List.foldl_cons, hl tf (List.mem_cons_self tf l), max_self]
    exact ih (fun u hu => hl u (List.mem_cons_of_mem _ hu))

theorem validateAccuracy_six (precise : ℚ → ℚ) (uNumSamples uNumThreads : ℕ) :
    validateAccuracy precise uNumSamples uNumThreads 6 = 0 := by
  unfold validateAccuracy
  rw [reduceMax_apply]
  refine foldl_max_zero_slot _ (fun tf htf => ?_)
  obtain ⟨pr, -, rfl⟩ := List.mem_map.mp htf
  exact validateWorker_six precise uNumSamples pr.1 pr.2

/-- C10: every worker writes only slots `0..5` of its accumulator; the
reserved single-precision-baseline slot `6` is never written, so both every
worker's slot `6` and the reduced output's slot `6` are exactly `0`. -/
theorem slot_six_untouched :
    ∀ (precise : ℚ → ℚ) (uNumSamples uStart uEnd uNumThreads : ℕ),
      validateWorker precise uNumSamples uStart uEnd 6 = 0 ∧
      validateAccuracy precise uNumSamples uNumThreads 6 = 0 := by
  intro precise uNumSamples uStart uEnd uNumThreads
  exact ⟨validateWorker_six precise uNumSamples uStart uEnd,
    validateAccuracy_six precise uNumSamples uNumThreads⟩

theorem errOf_wraparound (precise : ℚ → ℚ) (h1 : precise 1 = 0) (h2 : precise 2 = 1)
    (k : Fin 7) : errOf precise 1000 1000 k = errOf precise 1000 0 k := by
  have hs0 : sampleAt 1000 0 = 1 := by norm_num [sampleAt]
  have hs1 : sampleAt 1000 1000 = 2 := by norm_num [sampleAt]
  fin_cases k
  · simp only [errOf, hs0, hs1, h1, h2]
    rw [fastLog2p1_finite_pos (show (0:ℚ) < 2 by norm_num),
      fastLog2p1_finite_pos (show (0:ℚ) < 1 by norm_num)]
    simp only [FloatVal.toQ, fastLog2p1Pos_two, fastLog2p1Pos_one]
    congr 1
    ring
  · simp only [errOf, hs0, hs1, h1, h2]
    rw [fastLog2p2_finite_pos (show (0:ℚ) < 2 by norm_num),
      fastLog2p2_finite_pos (show (0:ℚ) < 1 by norm_num)]
    simp only [FloatVal.toQ, fastLog2p2Pos_two, fastLog2p2Pos_one]
    congr 1
    ring
  · simp only [errOf, hs0, hs1, h1, h2]
    rw [fastLog2p3_finite_pos (show (0:ℚ) < 2 by norm_num),
      fastLog2p3_finite_pos (show (0:ℚ) < 1 by norm_num)]
    simp only [FloatVal.toQ, fastLog2p3Pos_two, fastLog2p3Pos_one]
    congr 1
    ring
  · simp only [errOf, hs0, hs1, h1, h2]
    rw [fastLog2p4_finite_pos (show (0:ℚ) < 2 by norm_num),
      fastLog2p4_finite_pos (show (0:ℚ) < 1 by norm_num)]
    simp only [FloatVal.toQ, fastLog2p4Pos_two, fastLog2p4Pos_one]
    congr 1
    ring
  · simp only [errOf, hs0, hs1, h1, h2]
    rw [fastLog2p5_finite_pos (show (0:ℚ) < 2 by norm_num),
      fastLog2p5_finite_pos (show (0:ℚ) < 1 by norm_num)]
    simp only [FloatVal.toQ, fastLog2p5Pos_two, fastLog2p5Pos_one]
    congr 1
    ring
  · simp only [errOf, hs0, hs1, h1, h2]
    rw [fastLog2p6_finite_pos (show (0:ℚ) < 2 by norm_num),
      fastLog2p6_finite_pos (show (0:ℚ) < 1 by norm_num)]
    simp only [FloatVal.toQ, fastLog2p6Pos_two, fastLog2p6Pos_one]
    congr 1
    ring
  · rfl

set_option maxRecDepth 20000 in
/-- C4: for `N = 1000` and `W = 7` the concatenation of the worker
partitions is exactly the index list `0, 1, ..., 1000` (the closed range
`[0, N]`, each index once: no overlaps, no gaps), and for any trusted
logarithm oracle with the exact values `log2 1 = 0` and `log2 2 = 1`, the
reduced global maximum of the `W = 7` run equals that of the
single-threaded `W = 1` run in every slot: partitioning does not change the
measured result.  (`W = 1` sweeps `[0, 1000)`; the extra index `1000` of the
`W = 7` run contributes the same error as index `0`.) -/
theorem validateAccuracy_partition_refinement (precise : ℚ → ℚ)
    (h1 : precise 1 = 0) (h2 : precise 2 = 1) :
    ((partitions 1000 7).flatMap (fun pr => List.range' pr.1 (pr.2 - pr.1)) =
      List.range 1001) ∧
    ∀ k : Fin 7, validateAccuracy precise 1000 7 k = validateAccuracy precise 1000 1 k := by
  have hparts7 : (partitions 1000 7).flatMap (fun pr => List.range' pr.1 (pr.2 - pr.1)) =
      List.range 1001 := by decide
  have hparts1 : (partitions 1000 1).flatMap (fun pr => List.range' pr.1 (pr.2 - pr.1)) =
      List.range 1000 := by decide
  refine ⟨hparts7, fun k => ?_⟩
  rcases eq_or_ne k 6 with hk | hk
  · subst hk
    rw [validateAccuracy_six, validateAccuracy_six]
  · have hW : ∀ (W : ℕ) (cover : List ℕ),
        ((partitions 1000 W).flatMap (fun pr => List.range' pr.1 (pr.2 - pr.1)) = cover) →
        validateAccuracy precise 1000 W k =
          cover.foldl (fun m i => max m (errOf precise 1000 i k)) 0 := by
      intro W cover hcov
      unfold validateAccuracy
      rw [reduceMax_apply, List.foldl_map]
      have hcongr : ∀ (ps : List (ℕ × ℕ)) (a : ℚ),
          ps.foldl (fun m pr => max m (validateWorker precise 1000 pr.1 pr.2 k)) a =
            ps.foldl (fun m pr => max m ((List.range' pr.1 (pr.2 - pr.1)).foldl
              (fun m i => max m (errOf precise 1000 i k)) 0)) a := by
        intro ps a
        congr 1
        funext m pr
        rw [validateWorker_proj _ _ _ _ _ hk]
      rw [hcongr, foldl_max_flatMap _ _ _ le_rfl, hcov]
    rw [hW 7 _ hparts7, hW 1 _ hparts1]
    rw [show List.range 1001 = List.range 1000 ++ [1000] by
      rw [show (1001 : ℕ) = 1000 + 1 from rfl, List.range_succ]]
    rw [List.foldl_append, List.foldl_cons, List.foldl_nil]
    rw [errOf_wraparound precise h1 h2 k]
    exact max_eq_left (mem_le_foldl_max _ _ _ (List.mem_range.mpr (by norm_num)))

theorem validateAccuracy_partition_refinement_witness :
    ((partitions 1000 7).flatMap (fun pr => List.range' pr.1 (pr.2 - pr.1)) =
      List.range 1001) ∧
    validateAccuracy (fun q => if q = 2 then 1 else 0) 1000 7 0 =
      validateAccuracy (fun q => if q = 2 then 1 else 0) 1000 1 0 := by
  obtain ⟨hp, hall⟩ := validateAccuracy_partition_refinement
    (fun q => if q = 2 then 1 else 0) (by norm_num) (by norm_num)
  exact ⟨hp, hall 0⟩

theorem foldl_max_perm {α : Type} (g : α → ℚ) {l1 l2 : List α} (h : l1.Perm l2) :
    ∀ a : ℚ, l1.foldl (fun m t => max m (g t)) a = l2.foldl (fun m t => max m (g t)) a := by
  induction h with
  | nil => intro a; rfl
  | cons x h ih =>
    intro a
    rw [List.foldl_cons, List.foldl_cons, ih]
  | swap x y l =>
    intro a
    rw [List.foldl_cons, List.foldl_cons, List.foldl_cons, List.foldl_cons, sup_right_comm]
  | trans h1 h2 ih1 ih2 =>
    intro a
    rw [ih1, ih2]

/-- C8: the global reduction of `validateAccuracy` is the element-wise
maximum over the per-worker maxima, and since element-wise maximum is
commutative and associative, any permutation of the collected worker
results reduces to the same output. -/
theorem reduceMax_perm_invariant :
    (∀ (precise : ℚ → ℚ) (uNumSamples uNumThreads : ℕ),
      validateAccuracy precise uNumSamples uNumThreads =
        reduceMax ((partitions uNumSamples uNumThreads).map
          (fun pr => validateWorker precise uNumSamples pr.1 pr.2))) ∧
    ∀ (results results' : List (Fin 7 → ℚ)), results.Perm results' →
      reduceMax results = reduceMax results' := by
  refine ⟨fun _ _ _ => rfl, fun results results' h => ?_⟩
  funext k
  rw [reduceMax_apply, reduceMax_apply]
  exact foldl_max_perm (fun tf => tf k) h 0

theorem reduceMax_perm_invariant_witness :
    reduceMax [fun _ => (1 : ℚ), fun _ => 2] = reduceMax [fun _ => 2, fun _ => 1] := by
  exact reduceMax_perm_invariant.2 _ _ (List.Perm.swap _ _ _)
